import Mathlib

/-!
Verification of `train_sklearn_model.py` (plant-disease classifier training
script) against its natural-language specification.

Shallow embedding: the decoded, resized image is a list of rows of RGB
pixels; machine floats are idealised as rationals; the external float
square root (inside `np.std`) and PIL's per-pixel RGB→HSV conversion are
abstract function parameters; image decoding (`Image.open` + `convert` +
`resize`), which may raise, is an abstract `String → Option ImgArr`.
-/

namespace TrainSklearn

/-- Configuration constant IMG_SIZE (line 23 of the source). -/
def IMG_SIZE : ℕ := 128

/-- Configuration constant SAMPLES_PER_CLASS (line 24 of the source). -/
def SAMPLES_PER_CLASS : ℕ := 1000

/-- One pixel of the decoded RGB image array: three byte values. -/
structure Pix where
  r : ℕ
  g : ℕ
  b : ℕ
deriving DecidableEq, Repr

/-- The decoded image array `img_array` (H rows of W pixels). -/
abbrev ImgArr := List (List Pix)

/-- All pixels in row-major order. -/
def pixels (a : ImgArr) : List Pix := a.flatten

/-- Well-formed decoded image: `img.resize((IMG_SIZE, IMG_SIZE))` always
yields a 128 × 128 array, so every array reaching feature extraction has
this shape. -/
def ImgWF (a : ImgArr) : Prop :=
  a.length = IMG_SIZE ∧ ∀ row ∈ a, row.length = IMG_SIZE

instance (a : ImgArr) : Decidable (ImgWF a) := by
  unfold ImgWF; infer_instance

/-- np.mean of a list of values (numpy would give nan on an empty array;
that input is unreachable here since resize always yields 16384 pixels,
and division by zero makes the value 0 instead). -/
def npMean (xs : List ℚ) : ℚ := xs.sum / (xs.length : ℚ)

/-- Population variance, as used inside np.std. -/
def npVariance (xs : List ℚ) : ℚ := npMean (xs.map (fun x => (x - npMean xs) ^ 2))

/-- np.std = sqrt of the population variance. The float square root is an
external library routine, abstracted as the parameter `sq`. -/
def npStd (sq : ℚ → ℚ) (xs : List ℚ) : ℚ := sq (npVariance xs)

/-- np.median: sort, take the middle element (odd length) or the average of
the two middle elements (even length). -/
def npMedian (xs : List ℚ) : ℚ :=
  let s := List.insertionSort (· ≤ ·) xs
  let n := s.length
  if n % 2 = 1 then s.getD (n / 2) 0
  else (s.getD (n / 2 - 1) 0 + s.getD (n / 2) 0) / 2

/-- np.min (0 on the unreachable empty array). -/
def npMin (xs : List ℚ) : ℚ :=
  match xs with
  | [] => 0
  | x :: rest => rest.foldl min x

/-- np.max (0 on the unreachable empty array). -/
def npMax (xs : List ℚ) : ℚ :=
  match xs with
  | [] => 0
  | x :: rest => rest.foldl max x

/-- Red channel `img_array[:,:,0]`, flattened. -/
def chanR (a : ImgArr) : List ℕ := (pixels a).map Pix.r

/-- Green channel `img_array[:,:,1]`, flattened. -/
def chanG (a : ImgArr) : List ℕ := (pixels a).map Pix.g

/-- Blue channel `img_array[:,:,2]`, flattened. -/
def chanB (a : ImgArr) : List ℕ := (pixels a).map Pix.b

/-- Byte values as rationals. -/
def natsToQ (xs : List ℕ) : List ℚ := xs.map (fun (v : ℕ) => (v : ℚ))

/-- All channel values of the whole array (`np.mean(img_array)` averages
over every value of the H × W × 3 array, row-major). -/
def allVals (a : ImgArr) : List ℚ :=
  (pixels a).flatMap (fun p => [(p.r : ℚ), (p.g : ℚ), (p.b : ℚ)])

/-- np.histogram with bins=64 and range (0, 256): bin width 4, so byte
value v lands in bin v / 4. Returns the raw counts per bin. -/
def histChannel (vals : List ℕ) : List ℚ :=
  (List.range 64).map (fun (k : ℕ) => (((vals.filter (fun (v : ℕ) => v / 4 == k)).length : ℚ)))

/-- Histogram normalised by IMG_SIZE * IMG_SIZE (lines 47-49). -/
def histNorm (vals : List ℕ) : List ℚ :=
  (histChannel vals).map (fun (c : ℚ) => c / ((IMG_SIZE : ℚ) * (IMG_SIZE : ℚ)))

/-- `np.mean(img_array, axis=(0,1))`: the three per-channel means. -/
def mean_rgb (a : ImgArr) : List ℚ :=
  [npMean (natsToQ (chanR a)), npMean (natsToQ (chanG a)), npMean (natsToQ (chanB a))]

/-- `np.std(img_array, axis=(0,1))`: the three per-channel standard deviations. -/
def std_rgb (sq : ℚ → ℚ) (a : ImgArr) : List ℚ :=
  [npStd sq (natsToQ (chanR a)), npStd sq (natsToQ (chanG a)), npStd sq (natsToQ (chanB a))]

/-- `np.median(img_array, axis=(0,1))`: the three per-channel medians. -/
def median_rgb (a : ImgArr) : List ℚ :=
  [npMedian (natsToQ (chanR a)), npMedian (natsToQ (chanG a)), npMedian (natsToQ (chanB a))]

/-- `np.min(img_array, axis=(0,1))`. -/
def min_rgb (a : ImgArr) : List ℚ :=
  [npMin (natsToQ (chanR a)), npMin (natsToQ (chanG a)), npMin (natsToQ (chanB a))]

/-- `np.max(img_array, axis=(0,1))`. -/
def max_rgb (a : ImgArr) : List ℚ :=
  [npMax (natsToQ (chanR a)), npMax (natsToQ (chanG a)), npMax (natsToQ (chanB a))]

/-- The HSV array `np.array(img.convert('HSV'))`: PIL's per-pixel integer
RGB→HSV conversion is an external library routine, abstracted as the
parameter `hsv` (the resulting `Pix` fields are read as H, S, V). -/
def hsvPixels (hsv : Pix → Pix) (a : ImgArr) : List Pix := (pixels a).map hsv

/-- `np.mean(hsv_array, axis=(0,1))`. -/
def mean_hsv (hsv : Pix → Pix) (a : ImgArr) : List ℚ :=
  [npMean (natsToQ ((hsvPixels hsv a).map Pix.r)),
   npMean (natsToQ ((hsvPixels hsv a).map Pix.g)),
   npMean (natsToQ ((hsvPixels hsv a).map Pix.b))]

/-- `np.std(hsv_array, axis=(0,1))`. -/
def std_hsv (sq : ℚ → ℚ) (hsv : Pix → Pix) (a : ImgArr) : List ℚ :=
  [npStd sq (natsToQ ((hsvPixels hsv a).map Pix.r)),
   npStd sq (natsToQ ((hsvPixels hsv a).map Pix.g)),
   npStd sq (natsToQ ((hsvPixels hsv a).map Pix.b))]

/-- Grayscale `np.mean(img_array, axis=2)`: per-pixel mean of the three
channels (float32 rounding idealised to exact rationals). -/
def grayOf (a : ImgArr) : List (List ℚ) :=
  a.map (fun row => row.map (fun p => ((p.r : ℚ) + (p.g : ℚ) + (p.b : ℚ)) / 3))

/-- Boundary index of scipy.ndimage.convolve's default mode, reflect:
(d c b a | a b c d).  A single reflection suffices for a 3 × 3 kernel on a
nonempty array. -/
def reflectIdx (n : ℕ) (i : ℤ) : ℕ :=
  if i < 0 then (-1 - i).toNat
  else if (n : ℤ) ≤ i then ((2 * (n : ℤ)) - 1 - i).toNat
  else i.toNat

/-- The row selected by the reflect boundary rule. -/
def rowAtR (grid : List (List ℚ)) (i : ℤ) : List ℚ :=
  grid.getD (reflectIdx grid.length i) []

/-- Array access with scipy's reflect boundary handling. -/
def reflectGet (grid : List (List ℚ)) (i j : ℤ) : ℚ :=
  (rowAtR grid i).getD (reflectIdx (rowAtR grid i).length j) 0

/-- One entry of the Laplacian response with reflect boundary: the kernel
[[0,1,0],[1,-4,1],[0,1,0]] is symmetric, so the convolution's kernel flip
is invisible — the entry is the sum of the four orthogonal neighbours
minus 4 times the centre. -/
def lapAt (grid : List (List ℚ)) (i j : ℤ) : ℚ :=
  reflectGet grid (i - 1) j + reflectGet grid (i + 1) j +
  reflectGet grid i (j - 1) + reflectGet grid i (j + 1) -
  4 * reflectGet grid i j

/-- `ndimage.convolve(gray, laplacian)` (lines 70-76) with scipy's default
reflect boundary handling. -/
def edgesArr (grid : List (List ℚ)) : List (List ℚ) :=
  (List.range grid.length).map (fun (i : ℕ) =>
    (List.range (grid.headD []).length).map (fun (j : ℕ) =>
      lapAt grid (i : ℤ) (j : ℤ)))

/-- Edge-replicated (clamped) boundary index, following the spec's words
("edge-replicated ... boundary handling"). -/
def clampIdx (n : ℕ) (i : ℤ) : ℕ := (max 0 (min ((n : ℤ) - 1) i)).toNat

/-- The row selected by the edge-replicated boundary rule. -/
def rowAtC (grid : List (List ℚ)) (i : ℤ) : List ℚ :=
  grid.getD (clampIdx grid.length i) []

/-- Array access with edge-replicated boundary handling (spec wording). -/
def clampGet (grid : List (List ℚ)) (i j : ℤ) : ℚ :=
  (rowAtC grid i).getD (clampIdx (rowAtC grid i).length j) 0

/-- One entry of the Laplacian response with edge-replicated boundary. -/
def lapAtC (grid : List (List ℚ)) (i j : ℤ) : ℚ :=
  clampGet grid (i - 1) j + clampGet grid (i + 1) j +
  clampGet grid i (j - 1) + clampGet grid i (j + 1) -
  4 * clampGet grid i j

/-- The Laplacian convolution as the spec words it: same kernel, with
edge-replicated boundary handling. -/
def edgesArrReplicate (grid : List (List ℚ)) : List (List ℚ) :=
  (List.range grid.length).map (fun (i : ℕ) =>
    (List.range (grid.headD []).length).map (fun (j : ℕ) =>
      lapAtC grid (i : ℤ) (j : ℤ)))

/-- `edge_mean = np.mean(np.abs(edges))` (line 77). -/
def edge_mean (a : ImgArr) : ℚ :=
  npMean ((edgesArr (grayOf a)).flatten.map (fun x => |x|))

/-- `edge_std = np.std(edges)` (line 78). -/
def edge_std (sq : ℚ → ℚ) (a : ImgArr) : ℚ :=
  npStd sq (edgesArr (grayOf a)).flatten

/-- `green_ratio = np.mean(img_array[:,:,1]) / (np.mean(img_array) + 1e-6)`
(line 81). -/
def green_ratio (a : ImgArr) : ℚ :=
  npMean (natsToQ (chanG a)) / (npMean (allVals a) + 1 / 1000000)

/-- Brown-pixel mask (line 85): red > 100, 50 < green < 150, blue < 100. -/
def brownPix (p : Pix) : Bool :=
  decide (100 < p.r) && decide (50 < p.g) && decide (p.g < 150) && decide (p.b < 100)

/-- `brown_ratio = np.sum(brown_mask) / (IMG_SIZE * IMG_SIZE)` (line 86). -/
def brown_ratio (a : ImgArr) : ℚ :=
  (((pixels a).filter brownPix).length : ℚ) / ((IMG_SIZE : ℚ) * (IMG_SIZE : ℚ))

/-- Yellow-pixel mask (line 89): red > 150, green > 150, blue < 100. -/
def yellowPix (p : Pix) : Bool :=
  decide (150 < p.r) && decide (150 < p.g) && decide (p.b < 100)

/-- `yellow_ratio = np.sum(yellow_mask) / (IMG_SIZE * IMG_SIZE)` (line 90). -/
def yellow_ratio (a : ImgArr) : ℚ :=
  (((pixels a).filter yellowPix).length : ℚ) / ((IMG_SIZE : ℚ) * (IMG_SIZE : ℚ))

/-- Quadrant means (lines 93-99): split at h // 2 and w // 2, take
`np.mean` of each quadrant (over all its channel values). -/
def quadMeans (a : ImgArr) : List ℚ :=
  let h := a.length
  let w := (a.headD []).length
  let q1 : ImgArr := (a.take (h / 2)).map (fun row => row.take (w / 2))
  let q2 : ImgArr := (a.take (h / 2)).map (fun row => row.drop (w / 2))
  let q3 : ImgArr := (a.drop (h / 2)).map (fun row => row.take (w / 2))
  let q4 : ImgArr := (a.drop (h / 2)).map (fun row => row.drop (w / 2))
  [npMean (allVals q1), npMean (allVals q2), npMean (allVals q3), npMean (allVals q4)]

/-- `spatial_variance = np.std(quad_means)` (line 100). -/
def spatial_variance (sq : ℚ → ℚ) (a : ImgArr) : ℚ := npStd sq (quadMeans a)

/-- The feature computation of `extract_features_worker` (lines 34-112) on
the decoded, resized array: the concatenation of lines 103-110. -/
def worker_features (sq : ℚ → ℚ) (hsv : Pix → Pix) (a : ImgArr) : List ℚ :=
  histNorm (chanR a) ++ histNorm (chanG a) ++ histNorm (chanB a) ++
  mean_rgb a ++ std_rgb sq a ++ median_rgb a ++ min_rgb a ++ max_rgb a ++
  mean_hsv hsv a ++ std_hsv sq hsv a ++
  [edge_mean a, edge_std sq a] ++
  [green_ratio a, brown_ratio a, yellow_ratio a] ++
  [spatial_variance sq a]

/-- `extract_features_worker` (lines 28-115): the try/except turns any
decode failure into the explicit marker None; `decode` models
`Image.open(path).convert('RGB').resize((IMG_SIZE, IMG_SIZE))` plus
`np.array`, returning none on any error. -/
def extract_features_worker (decode : String → Option ImgArr) (sq : ℚ → ℚ)
    (hsv : Pix → Pix) (path : String) : Option (List ℚ) :=
  (decode path).map (worker_features sq hsv)

/-- The feature computation of `extract_features` in the generated
predict.py (lines 330-395), written out from that second copy of the
pipeline: same libraries, same steps, same concatenation order. -/
def predict_features (sq : ℚ → ℚ) (hsv : Pix → Pix) (a : ImgArr) : List ℚ :=
  histNorm (chanR a) ++ histNorm (chanG a) ++ histNorm (chanB a) ++
  mean_rgb a ++ std_rgb sq a ++ median_rgb a ++ min_rgb a ++ max_rgb a ++
  mean_hsv hsv a ++ std_hsv sq hsv a ++
  [edge_mean a, edge_std sq a] ++
  [green_ratio a, brown_ratio a, yellow_ratio a] ++
  [spatial_variance sq a]

/-- `extract_features` of the generated predict.py (lines 325-400): on
success the vector is reshaped to a 1-row matrix (`reshape(1, -1)`,
line 397); on any error the function returns None. -/
def predict_extract_features (decode : String → Option ImgArr) (sq : ℚ → ℚ)
    (hsv : Pix → Pix) (path : String) : Option (List (List ℚ)) :=
  (decode path).map (fun a => [predict_features sq hsv a])

/-- One class subdirectory of a dataset root: its name and its directory
listing (file names, in listing order). -/
structure ClassDir where
  name : String
  files : List String
deriving DecidableEq, Repr

/-- One dataset root that exists on disk: its path and its subdirectory
listing (`os.listdir` filtered by `isdir`, lines 138-139 / 156-157). -/
structure RootDir where
  path : String
  classes : List ClassDir
deriving DecidableEq, Repr

/-- `dataset_paths` as seen by `prepare_dataset`: `none` models a path for
which `os.path.exists` is false (skipped with a warning, lines 134-136). -/
abbrev Roots := List (Option RootDir)

/-- All class subdirectory names of all existing roots, in scan order (the
first, vocabulary pass: lines 132-141). -/
def allClassNames (roots : Roots) : List String :=
  (roots.filterMap id).flatMap (fun root => root.classes.map ClassDir.name)

/-- `class_names = sorted(list(all_classes))` (line 142): `all_classes` is
a set, so duplicates are merged before sorting. -/
def class_names (roots : Roots) : List String :=
  List.insertionSort (· ≤ ·) (allClassNames roots).dedup

/-- `class_to_idx` (line 146): the dictionary sending each class name to
its position in `class_names`. -/
def class_to_idx (roots : Roots) (name : String) : ℕ :=
  (class_names roots).indexOf name

/-- Recognized image extensions (lines 163-164):
`f.lower().endswith(('.jpg', '.jpeg', '.png'))`. -/
def isImageFile (f : String) : Bool :=
  f.toLower.endsWith ".jpg" || f.toLower.endsWith ".jpeg" || f.toLower.endsWith ".png"

/-- The per-class cap (lines 166-167): `random.sample` is an external,
unseeded sampler, abstracted as the parameter `sampler`; its library
contract (a sample without replacement of exactly the requested size) is a
hypothesis where needed. -/
def capFiles (sampler : List String → ℕ → List String) (imgs : List String) :
    List String :=
  if SAMPLES_PER_CLASS < imgs.length then sampler imgs SAMPLES_PER_CLASS else imgs

/-- `all_image_tasks` (lines 149-171): for each existing root in order, for
each listed class subdirectory, one (joined path, class index) task per
selected file. -/
def buildTasks (sampler : List String → ℕ → List String) (roots : Roots) :
    List (String × ℕ) :=
  (roots.filterMap id).flatMap (fun root =>
    root.classes.flatMap (fun c =>
      (capFiles sampler (c.files.filter isImageFile)).map (fun f =>
        (root.path ++ "/" ++ c.name ++ "/" ++ f, class_to_idx roots c.name))))

/-- The parallel map (lines 178-180): `extract_features_worker` applied to
every task path, results collected in task order. -/
def extractionResults (decode : String → Option ImgArr) (sq : ℚ → ℚ)
    (hsv : Pix → Pix) (tasks : List (String × ℕ)) : List (Option (List ℚ)) :=
  tasks.map (fun t => extract_features_worker decode sq hsv t.1)

/-- The merge loop (lines 182-189): walk results and tasks together, drop
every pair whose result is None, keep (features, label) of the rest in
order. -/
def assemble (tasks : List (String × ℕ)) (results : List (Option (List ℚ))) :
    List (List ℚ × ℕ) :=
  (results.zip tasks).filterMap (fun rt => rt.1.map (fun f => (f, rt.2.2)))

/-- `prepare_dataset` (lines 122-198): returns (X, y, class_names). -/
def prepare_dataset (decode : String → Option ImgArr) (sq : ℚ → ℚ)
    (hsv : Pix → Pix) (sampler : List String → ℕ → List String)
    (roots : Roots) : List (List ℚ) × List ℕ × List String :=
  let tasks := buildTasks sampler roots
  let results := extractionResults decode sq hsv tasks
  let pairs := assemble tasks results
  (pairs.map Prod.fst, pairs.map Prod.snd, class_names roots)

/-- The argument pair `train_model` hands to `train_test_split`
(lines 206-209): X and y are forwarded unchanged — there is no emptiness
check anywhere between assembly and the split. -/
def train_test_split_args (X : List (List ℚ)) (y : List ℕ) :
    List (List ℚ) × List ℕ := (X, y)

/-- A 128 × 128 all-black image (used as a concrete well-formed input). -/
def blackImg : ImgArr := List.replicate 128 (List.replicate 128 ⟨0, 0, 0⟩)

/-- A 128 × 128 all-green image (RGB (0, 255, 0)). -/
def greenImg : ImgArr := List.replicate 128 (List.replicate 128 ⟨0, 255, 0⟩)

/-- A deterministic stand-in obeying random.sample's contract on the
inputs where it is invoked in the witnesses. -/
def takeSampler : List String → ℕ → List String := fun xs n => xs.take n

/-- A directory listing with more recognized files than the cap. -/
def manyFiles : List String := List.replicate 1001 "x.jpg"

/-- A concrete root list: one existing root with two classes, one missing
root. -/
def rootsA : Roots :=
  [some ⟨"dataset", [⟨"healthy", ["a.jpg"]⟩, ⟨"blight", ["b.jpg"]⟩]⟩, none]

/-- A second concrete root list exposing the same class names from
different roots, in a different order. -/
def rootsB : Roots :=
  [none, some ⟨"data2", [⟨"blight", []⟩, ⟨"healthy", ["c.png"]⟩]⟩]

/-- Sorting the deduplication of two membership-equivalent string lists
gives the same list. -/
theorem sortedDedup_eq_of_mem_iff (xs ys : List String)
    (h : ∀ s : String, s ∈ xs ↔ s ∈ ys) :
    List.insertionSort (· ≤ ·) xs.dedup = List.insertionSort (· ≤ ·) ys.dedup := by
  have hperm : List.Perm xs.dedup ys.dedup := by
    apply List.perm_of_nodup_nodup_toFinset_eq (List.nodup_dedup xs) (List.nodup_dedup ys)
    ext s
    simp [List.mem_toFinset, List.mem_dedup, h s]
  exact List.eq_of_perm_of_sorted
    (((List.perm_insertionSort _ _).trans hperm).trans (List.perm_insertionSort _ _).symm)
    (List.sorted_insertionSort _ _) (List.sorted_insertionSort _ _)

/-- Every task label built by the sampling pass indexes the vocabulary. -/
theorem buildTasks_label_lt (sampler : List String → ℕ → List String)
    (roots : Roots) : ∀ t ∈ buildTasks sampler roots, t.2 < (class_names roots).length := by
  intro t ht
  obtain ⟨root, hroot, ht⟩ := List.mem_flatMap.mp ht
  obtain ⟨c, hc, ht⟩ := List.mem_flatMap.mp ht
  obtain ⟨f, _, ht⟩ := List.mem_map.mp ht
  have hmem : c.name ∈ allClassNames roots :=
    List.mem_flatMap.mpr ⟨root, hroot, List.mem_map.mpr ⟨c, hc, rfl⟩⟩
  have hmem2 : c.name ∈ class_names roots := by
    rw [class_names, (List.perm_insertionSort _ _).mem_iff, List.mem_dedup]
    exact hmem
  have := List.indexOf_lt_length.mpr hmem2
  rw [← ht]
  exact this

/-- The merge loop keeps one aligned pair per successful extraction. -/
theorem assemble_length_eq (results : List (Option (List ℚ)))
    (tasks : List (String × ℕ)) (h : results.length = tasks.length) :
    (assemble tasks results).length = (results.filter Option.isSome).length := by
  induction results generalizing tasks with
  | nil => simp [assemble]
  | cons r rs ih =>
    cases tasks with
    | nil => simp at h
    | cons t ts =>
      have hlen : rs.length = ts.length := by simpa using h
      cases r with
      | none => simpa [assemble, List.filterMap_cons] using ih ts hlen
      | some v =>
        have := ih ts hlen
        simpa [assemble, List.filterMap_cons] using this

/-- C1: for every image path, the training-time extractor and the
inference-time extractor of the generated predict.py agree: on every
decoded array the two pipelines compute element-for-element equal vectors,
and at path level the inference result is exactly the training vector
wrapped as a 1-row matrix (so both succeed on the same paths). -/
theorem c1_extraction_parity (decode : String → Option ImgArr) (sq : ℚ → ℚ)
    (hsv : Pix → Pix) (path : String) :
    (∀ a : ImgArr, predict_features sq hsv a = worker_features sq hsv a) ∧
    predict_extract_features decode sq hsv path =
      (extract_features_worker decode sq hsv path).map (fun v => [v]) := by
  refine ⟨fun a => rfl, ?_⟩
  unfold predict_extract_features extract_features_worker
  cases decode path <;> rfl

/-- C4: every successful extraction returns exactly 219 features, in the
fixed order 192 histogram bins (64 red, 64 green, 64 blue), 15 RGB
statistics (mean, std, median, min, max per channel), 6 HSV statistics
(mean, std per channel), 2 edge statistics, 3 ratio features, and the
spatial-variance scalar. -/
theorem c4_feature_vector_length (sq : ℚ → ℚ) (hsv : Pix → Pix) (a : ImgArr) :
    (worker_features sq hsv a).length = 219 ∧
    worker_features sq hsv a =
      (histNorm (chanR a) ++ histNorm (chanG a) ++ histNorm (chanB a)) ++
      (mean_rgb a ++ std_rgb sq a ++ median_rgb a ++ min_rgb a ++ max_rgb a) ++
      (mean_hsv hsv a ++ std_hsv sq hsv a) ++
      [edge_mean a, edge_std sq a] ++
      [green_ratio a, brown_ratio a, yellow_ratio a] ++
      [spatial_variance sq a] ∧
    (histNorm (chanR a)).length = 64 ∧ (histNorm (chanG a)).length = 64 ∧
    (histNorm (chanB a)).length = 64 ∧
    (mean_rgb a ++ std_rgb sq a ++ median_rgb a ++ min_rgb a ++ max_rgb a).length = 15 ∧
    (mean_hsv hsv a ++ std_hsv sq hsv a).length = 6 := by
  refine ⟨?_, by simp [worker_features], ?_, ?_, ?_, ?_, ?_⟩ <;>
    simp [worker_features, histNorm, histChannel, mean_rgb, std_rgb, median_rgb,
      min_rgb, max_rgb, mean_hsv, std_hsv]

/-- C2: refuted by the code — when every dataset root is missing,
prepare_dataset returns empty feature and label arrays, and train_model
forwards exactly those empty arrays to train_test_split: no fatal
empty-dataset check exists anywhere before the split. -/
theorem c2_empty_dataset_reaches_split :
    prepare_dataset (fun _ => none) id (fun p => p) takeSampler [none, none] =
      ([], [], []) ∧
    train_test_split_args [] [] = ([], []) := ⟨rfl, rfl⟩

/-- C5: the vocabulary equals the sorted deduplicated union of the class
subdirectory names across all existing roots — it is sorted, duplicate
free, and contains exactly those names — and any two root lists exposing
the same set of class names (in particular any permutation of the roots or
of each directory listing) give the same vocabulary and the same index for
every class name. -/
theorem c5_vocabulary_sorted_stable (roots roots2 : Roots)
    (h : ∀ s : String, s ∈ allClassNames roots ↔ s ∈ allClassNames roots2) :
    (class_names roots).Sorted (· ≤ ·) ∧
    (class_names roots).Nodup ∧
    (∀ s, s ∈ class_names roots ↔ s ∈ allClassNames roots) ∧
    class_names roots = class_names roots2 ∧
    ∀ s, class_to_idx roots s = class_to_idx roots2 s := by
  have heq : class_names roots = class_names roots2 := sortedDedup_eq_of_mem_iff _ _ h
  refine ⟨List.sorted_insertionSort _ _, ?_, ?_, heq,
    fun s => by rw [class_to_idx, class_to_idx, heq]⟩
  · exact ((List.perm_insertionSort _ _).nodup_iff).mpr (List.nodup_dedup _)
  · intro s
    rw [class_names, (List.perm_insertionSort _ _).mem_iff, List.mem_dedup]

/-- Witness for C5 at two concrete root lists that expose the same two
class names from different roots in different listing order. -/
theorem c5_vocabulary_sorted_stable_witness :
    (∀ s : String, s ∈ allClassNames rootsA ↔ s ∈ allClassNames rootsB) ∧
    ((class_names rootsA).Sorted (· ≤ ·) ∧
     (class_names rootsA).Nodup ∧
     (∀ s, s ∈ class_names rootsA ↔ s ∈ allClassNames rootsA) ∧
     class_names rootsA = class_names rootsB ∧
     ∀ s, class_to_idx rootsA s = class_to_idx rootsB s) := by
  have h : ∀ s : String, s ∈ allClassNames rootsA ↔ s ∈ allClassNames rootsB := by
    intro s
    simp only [allClassNames, rootsA, rootsB]
    simp
    tauto
  exact ⟨h, c5_vocabulary_sorted_stable rootsA rootsB h⟩

/-- C6: after assembly the features and labels have equal length, every
label is a valid index into the vocabulary, and the zipped output is
exactly the in-order sequence of successful (features, label) pairs: a
failed extraction is dropped from both sequences together and survivors
keep their relative order. -/
theorem c6_alignment (decode : String → Option ImgArr) (sq : ℚ → ℚ)
    (hsv : Pix → Pix) (sampler : List String → ℕ → List String)
    (roots : Roots) :
    let out := prepare_dataset decode sq hsv sampler roots
    let tasks := buildTasks sampler roots
    let results := extractionResults decode sq hsv tasks
    out.1.length = out.2.1.length ∧
    (∀ l ∈ out.2.1, l < out.2.2.length) ∧
    out.1.zip out.2.1 =
      (results.zip tasks).filterMap (fun rt => rt.1.map (fun f => (f, rt.2.2))) := by
  refine ⟨by simp [prepare_dataset], ?_, ?_⟩
  · intro l hl
    simp only [prepare_dataset, List.mem_map] at hl
    obtain ⟨pair, hpair, hl⟩ := hl
    obtain ⟨rt, hrt, heq⟩ := List.mem_filterMap.mp hpair
    obtain ⟨feat, _, heq⟩ := Option.map_eq_some'.mp heq
    have htask : rt.2 ∈ buildTasks sampler roots := (List.of_mem_zip hrt).2
    have := buildTasks_label_lt sampler roots rt.2 htask
    simp [prepare_dataset]
    rw [← hl, ← heq]
    exact this
  · simp [prepare_dataset, List.zip_map', assemble]

/-- C7: per class subdirectory, when the recognized files exceed the cap,
exactly SAMPLES_PER_CLASS of them are selected, without replacement from
the listed files (the sampler's library contract); otherwise every
recognized file is used. -/
theorem c7_sampling_cap (sampler : List String → ℕ → List String)
    (imgs : List String)
    (hlen : SAMPLES_PER_CLASS < imgs.length →
      (sampler imgs SAMPLES_PER_CLASS).length = SAMPLES_PER_CLASS)
    (hsub : SAMPLES_PER_CLASS < imgs.length →
      List.Subperm (sampler imgs SAMPLES_PER_CLASS) imgs) :
    (SAMPLES_PER_CLASS < imgs.length →
      (capFiles sampler imgs).length = SAMPLES_PER_CLASS ∧
      List.Subperm (capFiles sampler imgs) imgs) ∧
    (imgs.length ≤ SAMPLES_PER_CLASS → capFiles sampler imgs = imgs) := by
  constructor
  · intro hgt
    rw [capFiles, if_pos hgt]
    exact ⟨hlen hgt, hsub hgt⟩
  · intro hle
    rw [capFiles, if_neg (by omega)]

/-- Witness for C7 on a 1001-file listing with a take-based sampler that
satisfies random.sample's contract there. -/
theorem c7_sampling_cap_witness :
    (SAMPLES_PER_CLASS < manyFiles.length →
      (takeSampler manyFiles SAMPLES_PER_CLASS).length = SAMPLES_PER_CLASS) ∧
    (SAMPLES_PER_CLASS < manyFiles.length →
      List.Subperm (takeSampler manyFiles SAMPLES_PER_CLASS) manyFiles) ∧
    ((SAMPLES_PER_CLASS < manyFiles.length →
      (capFiles takeSampler manyFiles).length = SAMPLES_PER_CLASS ∧
      List.Subperm (capFiles takeSampler manyFiles) manyFiles) ∧
     (manyFiles.length ≤ SAMPLES_PER_CLASS → capFiles takeSampler manyFiles = manyFiles)) := by
  have h1 : SAMPLES_PER_CLASS < manyFiles.length →
      (takeSampler manyFiles SAMPLES_PER_CLASS).length = SAMPLES_PER_CLASS := by
    intro _
    simp only [takeSampler, manyFiles, List.length_take, List.length_replicate,
      SAMPLES_PER_CLASS]
    omega
  have h2 : SAMPLES_PER_CLASS < manyFiles.length →
      List.Subperm (takeSampler manyFiles SAMPLES_PER_CLASS) manyFiles := by
    intro _
    exact (List.take_sublist _ _).subperm
  exact ⟨h1, h2, c7_sampling_cap takeSampler manyFiles h1 h2⟩

/-- C9: extraction failure is contained: the worker is a total function
returning the explicit marker None exactly when decoding fails (no
exception escapes it), and the assembler keeps exactly one feature row per
successful extraction — failed samples are excluded while the remaining
tasks are still processed. -/
theorem c9_failure_containment (decode : String → Option ImgArr) (sq : ℚ → ℚ)
    (hsv : Pix → Pix) (sampler : List String → ℕ → List String)
    (roots : Roots) :
    (∀ path, extract_features_worker decode sq hsv path = none ↔ decode path = none) ∧
    (prepare_dataset decode sq hsv sampler roots).1.length =
      ((extractionResults decode sq hsv (buildTasks sampler roots)).filter
        Option.isSome).length := by
  constructor
  · intro path
    unfold extract_features_worker
    cases decode path <;> simp
  · have := assemble_length_eq
      (extractionResults decode sq hsv (buildTasks sampler roots))
      (buildTasks sampler roots) (by simp [extractionResults])
    simpa [prepare_dataset] using this

/-- Flattening a replicated replicated row gives one long replicate. -/
theorem flatten_replicate_replicate {α : Type} (m n : ℕ) (x : α) :
    (List.replicate m (List.replicate n x)).flatten = List.replicate (m * n) x := by
  induction m with
  | zero => simp
  | succ m ih =>
    rw [List.replicate_succ, List.flatten_cons, ih, ← List.replicate_add]
    congr 1
    ring

/-- flatMap over a replicate is a flattened replicate. -/
theorem flatMap_replicate {α β : Type} (n : ℕ) (x : α) (f : α → List β) :
    (List.replicate n x).flatMap f = (List.replicate n (f x)).flatten := by
  induction n with
  | zero => rfl
  | succ n ih => simp [List.replicate_succ, ih]

/-- A well-formed image has exactly IMG_SIZE * IMG_SIZE pixels. -/
theorem pixels_length_of_wf (a : ImgArr) (h : ImgWF a) :
    (pixels a).length = IMG_SIZE * IMG_SIZE := by
  rw [pixels, List.length_flatten]
  have hrep : a.map List.length = List.replicate (a.map List.length).length IMG_SIZE := by
    apply List.eq_replicate_of_mem
    intro b hb
    obtain ⟨row, hrow, rfl⟩ := List.mem_map.mp hb
    exact h.2 row hrow
  rw [hrep, List.sum_replicate, List.length_map, h.1, smul_eq_mul]

/-- The mean of a list of nonnegative values is nonnegative. -/
theorem npMean_nonneg (xs : List ℚ) (h : ∀ x ∈ xs, 0 ≤ x) : 0 ≤ npMean xs :=
  div_nonneg (List.sum_nonneg h) (Nat.cast_nonneg _)

/-- Every entry of allVals is a cast byte value, hence nonnegative. -/
theorem allVals_nonneg (a : ImgArr) : ∀ x ∈ allVals a, 0 ≤ x := by
  intro x hx
  obtain ⟨p, _, hx⟩ := List.mem_flatMap.mp hx
  simp only [List.mem_cons, List.mem_singleton, List.not_mem_nil, or_false] at hx
  rcases hx with rfl | rfl | rfl <;> positivity

/-- Counting with two pointwise-exclusive predicates never exceeds the
list length. -/
theorem length_filter_add_length_filter_le {α : Type} (l : List α)
    (p q : α → Bool) (h : ∀ x ∈ l, ¬(p x = true ∧ q x = true)) :
    (l.filter p).length + (l.filter q).length ≤ l.length := by
  induction l with
  | nil => simp
  | cons x xs ih =>
    have hx := h x (List.mem_cons_self x xs)
    have hxs := ih (fun y hy => h y (List.mem_cons_of_mem x hy))
    by_cases hp : p x = true
    · by_cases hq : q x = true
      · exact absurd ⟨hp, hq⟩ hx
      · simp [List.filter_cons, hp, hq]
        omega
    · by_cases hq : q x = true
      · simp [List.filter_cons, hp, hq]
        omega
      · simp [List.filter_cons, hp, hq]
        omega

/-- The all-green image flattens to 16384 copies of one pixel. -/
theorem greenImg_pixels : pixels greenImg = List.replicate 16384 ⟨0, 255, 0⟩ := by
  rw [pixels, greenImg, flatten_replicate_replicate]

/-- The green channel of the all-green image has mean 255. -/
theorem greenImg_chanG_mean : npMean (natsToQ (chanG greenImg)) = 255 := by
  rw [chanG, greenImg_pixels, natsToQ, npMean, List.map_replicate, List.map_replicate,
    List.sum_replicate, List.length_replicate, nsmul_eq_mul]
  norm_num

/-- The overall channel mean of the all-green image is 85. -/
theorem greenImg_allVals_mean : npMean (allVals greenImg) = 85 := by
  rw [allVals, greenImg_pixels, flatMap_replicate, npMean, List.sum_flatten,
    List.length_flatten, List.map_replicate, List.map_replicate, List.sum_replicate,
    List.sum_replicate, nsmul_eq_mul, nsmul_eq_mul]
  norm_num

/-- C3: refuted by the code — on the all-green 128 × 128 image the green
ratio is 255 / (85 + 1e-6) ≈ 3, so green_ratio does not lie in [0, 1]. -/
theorem c3_green_ratio_counterexample : 1 < green_ratio greenImg := by
  rw [green_ratio, greenImg_chanG_mean, greenImg_allVals_mean]
  norm_num

/-- C3 (amended): for every well-formed image, brown_ratio and
yellow_ratio lie in [0, 1] and green_ratio is nonnegative; green_ratio is
not bounded by 1 (see the counterexample). -/
theorem c3_ratio_bounds (a : ImgArr) (h : ImgWF a) :
    0 ≤ brown_ratio a ∧ brown_ratio a ≤ 1 ∧
    0 ≤ yellow_ratio a ∧ yellow_ratio a ≤ 1 ∧
    0 ≤ green_ratio a := by
  have hlen := pixels_length_of_wf a h
  have hb : ((pixels a).filter brownPix).length ≤ IMG_SIZE * IMG_SIZE :=
    hlen ▸ List.length_filter_le _ _
  have hy : ((pixels a).filter yellowPix).length ≤ IMG_SIZE * IMG_SIZE :=
    hlen ▸ List.length_filter_le _ _
  refine ⟨by rw [brown_ratio]; exact div_nonneg (Nat.cast_nonneg _) (by norm_num [IMG_SIZE]), ?_,
    by rw [yellow_ratio]; exact div_nonneg (Nat.cast_nonneg _) (by norm_num [IMG_SIZE]), ?_, ?_⟩
  · rw [brown_ratio, div_le_one (by norm_num [IMG_SIZE])]
    rw [show ((IMG_SIZE : ℚ) * (IMG_SIZE : ℚ)) = ((IMG_SIZE * IMG_SIZE : ℕ) : ℚ) by push_cast; ring]
    exact_mod_cast hb
  · rw [yellow_ratio, div_le_one (by norm_num [IMG_SIZE])]
    rw [show ((IMG_SIZE : ℚ) * (IMG_SIZE : ℚ)) = ((IMG_SIZE * IMG_SIZE : ℕ) : ℚ) by push_cast; ring]
    exact_mod_cast hy
  · rw [green_ratio]
    apply div_nonneg
    · apply npMean_nonneg
      intro x hx
      obtain ⟨v, _, rfl⟩ := List.mem_map.mp hx
      positivity
    · have := npMean_nonneg (allVals a) (allVals_nonneg a)
      linarith

/-- Witness for the amended C3 at the all-black 128 × 128 image. -/
theorem c3_ratio_bounds_witness :
    ImgWF blackImg ∧
    (0 ≤ brown_ratio blackImg ∧ brown_ratio blackImg ≤ 1 ∧
     0 ≤ yellow_ratio blackImg ∧ yellow_ratio blackImg ≤ 1 ∧
     0 ≤ green_ratio blackImg) := by
  have hwf : ImgWF blackImg := by
    constructor
    · simp [blackImg, IMG_SIZE]
    · intro row hrow
      rw [blackImg, List.mem_replicate] at hrow
      simp [hrow.2, IMG_SIZE]
  exact ⟨hwf, c3_ratio_bounds blackImg hwf⟩

/-- The reflect index rule coincides with clamping one step beyond a
nonempty range. -/
theorem reflectIdx_eq_clampIdx (n : ℕ) (i : ℤ) (hn : 1 ≤ n) (h1 : -1 ≤ i)
    (h2 : i ≤ (n : ℤ)) : reflectIdx n i = clampIdx n i := by
  unfold reflectIdx clampIdx
  split_ifs <;> omega

/-- The clamped index is always inside a nonempty range. -/
theorem clampIdx_lt (n : ℕ) (i : ℤ) (hn : 1 ≤ n) : clampIdx n i < n := by
  unfold clampIdx
  omega

/-- On a nonempty rectangular grid, reflect access one step beyond the
border equals edge-replicated access. -/
theorem reflectGet_eq_clampGet (g : List (List ℚ)) (w : ℕ) (hg : 1 ≤ g.length)
    (hw : 1 ≤ w) (hrect : ∀ row ∈ g, row.length = w) (i j : ℤ)
    (hi1 : -1 ≤ i) (hi2 : i ≤ (g.length : ℤ)) (hj1 : -1 ≤ j) (hj2 : j ≤ (w : ℤ)) :
    reflectGet g i j = clampGet g i j := by
  have hrow : rowAtR g i = rowAtC g i := by
    rw [rowAtR, rowAtC, reflectIdx_eq_clampIdx g.length i hg hi1 hi2]
  have hidx : clampIdx g.length i < g.length := clampIdx_lt _ _ hg
  have hmem : rowAtC g i ∈ g := by
    rw [rowAtC, List.getD_eq_getElem?_getD, List.getElem?_eq_getElem hidx]
    exact List.getElem_mem hidx
  have hlenrow : (rowAtC g i).length = w := hrect _ hmem
  rw [reflectGet, clampGet, hrow, hlenrow,
    reflectIdx_eq_clampIdx w j hw hj1 hj2]

/-- Inside a nonempty rectangular grid the reflect-boundary Laplacian
entry equals the edge-replicated one. -/
theorem lapAt_eq_lapAtC (g : List (List ℚ)) (w : ℕ) (hg : 1 ≤ g.length)
    (hw : 1 ≤ w) (hrect : ∀ row ∈ g, row.length = w) (i j : ℤ)
    (hi1 : 0 ≤ i) (hi2 : i < (g.length : ℤ)) (hj1 : 0 ≤ j) (hj2 : j < (w : ℤ)) :
    lapAt g i j = lapAtC g i j := by
  rw [lapAt, lapAtC,
    reflectGet_eq_clampGet g w hg hw hrect (i - 1) j
      (by omega) (by omega) (by omega) (by omega),
    reflectGet_eq_clampGet g w hg hw hrect (i + 1) j
      (by omega) (by omega) (by omega) (by omega),
    reflectGet_eq_clampGet g w hg hw hrect i (j - 1)
      (by omega) (by omega) (by omega) (by omega),
    reflectGet_eq_clampGet g w hg hw hrect i (j + 1)
      (by omega) (by omega) (by omega) (by omega),
    reflectGet_eq_clampGet g w hg hw hrect i j
      (by omega) (by omega) (by omega) (by omega)]

/-- On a nonempty rectangular grid the scipy convolution (reflect
boundary) and the spec's edge-replicated convolution coincide. -/
theorem edgesArr_eq_replicate (g : List (List ℚ)) (w : ℕ) (hg : 1 ≤ g.length)
    (hw : 1 ≤ w) (hhead : (g.headD []).length = w)
    (hrect : ∀ row ∈ g, row.length = w) :
    edgesArr g = edgesArrReplicate g := by
  unfold edgesArr edgesArrReplicate
  apply List.map_congr_left
  intro i hi
  rw [List.mem_range] at hi
  apply List.map_congr_left
  intro j hj
  rw [hhead, List.mem_range] at hj
  exact lapAt_eq_lapAtC g w hg hw hrect (i : ℤ) (j : ℤ)
    (by omega) (by omega) (by omega) (by omega)

/-- C8: the two edge features come from graying the image as the per-pixel
mean of the three channels and convolving with the Laplacian kernel whose
centre is −4, orthogonal neighbours +1 and corners 0; on every well-formed
image the boundary handling the code gets from scipy (reflect) coincides
with the spec's edge-replicated handling, and the features are the mean
absolute value and the standard deviation of the convolved result. -/
theorem c8_edge_features (sq : ℚ → ℚ) (a : ImgArr) (h : ImgWF a) :
    edgesArr (grayOf a) = edgesArrReplicate (grayOf a) ∧
    edge_mean a = npMean ((edgesArrReplicate (grayOf a)).flatten.map (fun x => |x|)) ∧
    edge_std sq a = npStd sq (edgesArrReplicate (grayOf a)).flatten ∧
    grayOf a = a.map (fun row => row.map (fun p => ((p.r : ℚ) + (p.g : ℚ) + (p.b : ℚ)) / 3)) := by
  have hg : (grayOf a).length = IMG_SIZE := by simp [grayOf, h.1]
  have hrect : ∀ row ∈ grayOf a, row.length = IMG_SIZE := by
    intro row hrow
    obtain ⟨r0, hr0, rfl⟩ := List.mem_map.mp hrow
    simp [h.2 r0 hr0]
  have hhead : ((grayOf a).headD []).length = IMG_SIZE := by
    cases hga : grayOf a with
    | nil => rw [hga] at hg; simp [IMG_SIZE] at hg
    | cons r rest =>
      have hr : r ∈ grayOf a := by rw [hga]; exact List.mem_cons_self r rest
      simpa [hga] using hrect r hr
  have heq := edgesArr_eq_replicate (grayOf a) IMG_SIZE
    (by rw [hg]; norm_num [IMG_SIZE]) (by norm_num [IMG_SIZE]) hhead hrect
  exact ⟨heq, by rw [edge_mean, heq], by rw [edge_std, heq], rfl⟩

/-- Witness for C8 at the all-black 128 × 128 image. -/
theorem c8_edge_features_witness :
    ImgWF blackImg ∧
    (edgesArr (grayOf blackImg) = edgesArrReplicate (grayOf blackImg) ∧
     edge_mean blackImg =
       npMean ((edgesArrReplicate (grayOf blackImg)).flatten.map (fun x => |x|)) ∧
     edge_std id blackImg = npStd id (edgesArrReplicate (grayOf blackImg)).flatten ∧
     grayOf blackImg =
       blackImg.map (fun row => row.map (fun p => ((p.r : ℚ) + (p.g : ℚ) + (p.b : ℚ)) / 3))) := by
  have hwf : ImgWF blackImg := by
    constructor
    · simp [blackImg, IMG_SIZE]
    · intro row hrow
      rw [blackImg, List.mem_replicate] at hrow
      simp [hrow.2, IMG_SIZE]
  exact ⟨hwf, c8_edge_features id blackImg hwf⟩

/-- C10: no pixel satisfies the brown mask and the yellow mask at once
(brown forces green < 150, yellow forces green > 150), so on a well-formed
image brown_ratio + yellow_ratio ≤ 1. -/
theorem c10_brown_yellow_disjoint (a : ImgArr) (h : ImgWF a) :
    (∀ p : Pix, ¬(brownPix p = true ∧ yellowPix p = true)) ∧
    brown_ratio a + yellow_ratio a ≤ 1 := by
  have hdis : ∀ p : Pix, ¬(brownPix p = true ∧ yellowPix p = true) := by
    rintro p ⟨hb, hy⟩
    simp only [brownPix, yellowPix, Bool.and_eq_true, decide_eq_true_eq] at hb hy
    omega
  refine ⟨hdis, ?_⟩
  have hlen := pixels_length_of_wf a h
  have hcount := length_filter_add_length_filter_le (pixels a) brownPix yellowPix
    (fun x _ => hdis x)
  rw [brown_ratio, yellow_ratio, div_add_div_same, div_le_one (by norm_num [IMG_SIZE])]
  rw [show ((IMG_SIZE : ℚ) * (IMG_SIZE : ℚ)) = ((IMG_SIZE * IMG_SIZE : ℕ) : ℚ) by push_cast; ring]
  have : ((pixels a).filter brownPix).length + ((pixels a).filter yellowPix).length ≤
      IMG_SIZE * IMG_SIZE := hlen ▸ hcount
  exact_mod_cast this

/-- Witness for C10 at the all-green 128 × 128 image. -/
theorem c10_brown_yellow_disjoint_witness :
    ImgWF greenImg ∧
    ((∀ p : Pix, ¬(brownPix p = true ∧ yellowPix p = true)) ∧
     brown_ratio greenImg + yellow_ratio greenImg ≤ 1) := by
  have hwf : ImgWF greenImg := by
    constructor
    · simp [greenImg, IMG_SIZE]
    · intro row hrow
      rw [greenImg, List.mem_replicate] at hrow
      simp [hrow.2, IMG_SIZE]
  exact ⟨hwf, c10_brown_yellow_disjoint greenImg hwf⟩

end TrainSklearn
